import Mathlib

/-!
# Verification of the `nogi` FEN parser

Shallow embedding of `src/fen_parser.rs`, `src/error.rs` and the data
model of `src/game.rs`.  Pure Rust functions become Lean functions;
Rust `Result` becomes `Except`; functions whose Rust code can panic
(out-of-range slice indexing in `parse_fen`, unguarded array writes in
`parse_piece_placement`) return `RunResult`, whose `panic` constructor
stands for a Rust runtime panic.
-/

namespace Nogi

/-- `Color` from `game.rs`. -/
inductive Color where
  | White
  | Black
deriving DecidableEq, Repr

/-- `Piece` from `game.rs`. -/
inductive Piece where
  | Pawn (c : Color)
  | Knight (c : Color)
  | Bishop (c : Color)
  | Rook (c : Color)
  | Queen (c : Color)
  | King (c : Color)
  | Empty
deriving DecidableEq, Repr

/-- `Castling` as used by `fen_parser.rs` (the parser assigns
`Castling::None`, `KingSide`, `QueenSide` and `Both`). -/
inductive Castling where
  | Both
  | QueenSide
  | KingSide
  | None
deriving DecidableEq, Repr

/-- `ErrorWrapper` from `error.rs`. -/
inductive ErrorWrapper where
  | InvalidFen
  | InvalidCoordinates
  | InvalidNumber
deriving DecidableEq, Repr

instance {ε α : Type} [DecidableEq ε] [DecidableEq α] :
    DecidableEq (Except ε α)
  | Except.ok a, Except.ok b =>
    if h : a = b then isTrue (by rw [h])
    else isFalse (fun he => h (by cases he; rfl))
  | Except.ok _, Except.error _ => isFalse (fun he => by cases he)
  | Except.error _, Except.ok _ => isFalse (fun he => by cases he)
  | Except.error a, Except.error b =>
    if h : a = b then isTrue (by rw [h])
    else isFalse (fun he => h (by cases he; rfl))

/-- Outcome of running a Rust function that may panic: a normal value,
a returned `Err`, or a runtime panic. -/
inductive RunResult (α : Type) where
  | ok (a : α)
  | error (e : ErrorWrapper)
  | panic

instance {α : Type} [DecidableEq α] : DecidableEq (RunResult α)
  | RunResult.ok a, RunResult.ok b =>
    if h : a = b then isTrue (by rw [h])
    else isFalse (fun he => h (by cases he; rfl))
  | RunResult.ok _, RunResult.error _ => isFalse (fun he => by cases he)
  | RunResult.ok _, RunResult.panic => isFalse (fun he => by cases he)
  | RunResult.error _, RunResult.ok _ => isFalse (fun he => by cases he)
  | RunResult.error a, RunResult.error b =>
    if h : a = b then isTrue (by rw [h])
    else isFalse (fun he => h (by cases he; rfl))
  | RunResult.error _, RunResult.panic => isFalse (fun he => by cases he)
  | RunResult.panic, RunResult.ok _ => isFalse (fun he => by cases he)
  | RunResult.panic, RunResult.error _ => isFalse (fun he => by cases he)
  | RunResult.panic, RunResult.panic => isTrue rfl

/-- `MailBoxBoard = [[Piece; 8]; 8]`, indexed `board[file][rank]`. -/
def MailBoxBoard : Type := Fin 8 → Fin 8 → Piece

instance : DecidableEq MailBoxBoard := fun b1 b2 =>
  if h : ((List.finRange 8).all fun i =>
      (List.finRange 8).all fun j => b1 i j == b2 i j) = true then
    isTrue (funext fun i => funext fun j => by
      have h1 := List.all_eq_true.mp h i (List.mem_finRange i)
      have h2 := List.all_eq_true.mp h1 j (List.mem_finRange j)
      exact eq_of_beq h2)
  else
    isFalse (fun he => h (by subst he; simp [List.all_eq_true]))

/-- The default-initialized board `[[Piece::Empty; 8]; 8]`. -/
def emptyBoard : MailBoxBoard := fun _ _ => Piece.Empty

/-- The in-bounds array write `board[file][rank] = piece`
(`parse_piece_placement` only reaches it when both indices are < 8;
out-of-bounds attempts are modelled as `RunResult.panic` at the call
site). -/
def setCell (b : MailBoxBoard) (file rank : Nat) (p : Piece) : MailBoxBoard :=
  fun i j => if i.val = file ∧ j.val = rank then p else b i j

/-- Rust `char::to_ascii_lowercase`: maps `'A'..='Z'` down by 32,
leaves every other character unchanged. -/
def toAsciiLower (c : Char) : Char :=
  if 'A' ≤ c ∧ c ≤ 'Z' then Char.ofNat (c.toNat + 32) else c

/-- Rust `char::is_uppercase`, restricted to the ASCII range that is
observable here: every character on which `fen_piece_to_piece` does not
fail is an ASCII letter or digit, and on ASCII the Unicode uppercase
property is exactly `'A'..='Z'`. -/
def isUpperChar (c : Char) : Bool := 'A' ≤ c ∧ c ≤ 'Z'

/-- Rust `char::is_lowercase`, restricted likewise to ASCII (the only
characters that reach the test in `parse_castling_rights` are
`'k'`, `'q'`, `'K'`, `'Q'`). -/
def isLowerChar (c : Char) : Bool := 'a' ≤ c ∧ c ≤ 'z'

/-- Rust `char::to_digit(10)`: `Some(d)` exactly on the ASCII digits
`'0'..='9'`. -/
def toDigit10 (c : Char) : Option Nat :=
  if '0' ≤ c ∧ c ≤ '9' then some (c.toNat - 48) else none

/-- `fen_piece_to_piece` from `fen_parser.rs`. -/
def fen_piece_to_piece (fen_piece : Char) : Except ErrorWrapper Piece :=
  let color := if isUpperChar fen_piece then Color.White else Color.Black
  match toAsciiLower fen_piece with
  | '1' | '2' | '3' | '4' | '5' | '6' | '7' | '8' => Except.ok Piece.Empty
  | 'p' => Except.ok (Piece.Pawn color)
  | 'n' => Except.ok (Piece.Knight color)
  | 'b' => Except.ok (Piece.Bishop color)
  | 'r' => Except.ok (Piece.Rook color)
  | 'q' => Except.ok (Piece.Queen color)
  | 'k' => Except.ok (Piece.King color)
  | _ => Except.error ErrorWrapper.InvalidFen

/-- Rust `str::split(sep)` for a single-character separator: splits at
every occurrence, keeping empty pieces (`"".split(" ")` is `[""]`). -/
def splitOnChar (sep : Char) : List Char → List (List Char)
  | [] => [[]]
  | c :: cs =>
    if c = sep then [] :: splitOnChar sep cs
    else
      match splitOnChar sep cs with
      | g :: gs => (c :: g) :: gs
      | [] => [[c]]

/-- `parse_fen` from `fen_parser.rs`.  The Rust code slices the
collected vector with `[0..6]`, which panics when fewer than six
space-delimited tokens exist; the `let ... else` branch returning
`ErrorWrapper::InvalidFen` is unreachable, because a `[0..6]` slice
that does not panic always matches the six-element pattern. -/
def parse_fen (fen : String) :
    RunResult (String × String × String × String × String × String) :=
  match splitOnChar ' ' fen.data with
  | pp :: ac :: ca :: ep :: hm :: fm :: _ =>
    RunResult.ok (String.mk pp, String.mk ac, String.mk ca,
      String.mk ep, String.mk hm, String.mk fm)
  | _ => RunResult.panic

/-- The loop of `parse_piece_placement`: walks the characters with a
mutable `file`/`rank` pair; `'/'` advances `file` and resets `rank`, a
digit advances `rank`, any other character is decoded and written at
`board[file][rank]` (a panic when either index is out of range). -/
def placeLoop : List Char → Nat → Nat → MailBoxBoard → RunResult MailBoxBoard
  | [], _, _, b => RunResult.ok b
  | c :: cs, file, rank, b =>
    if c = '/' then placeLoop cs (file + 1) 0 b
    else
      match toDigit10 c with
      | some d => placeLoop cs file (rank + d) b
      | none =>
        match fen_piece_to_piece c with
        | Except.error _ => RunResult.error ErrorWrapper.InvalidFen
        | Except.ok p =>
          if file < 8 ∧ rank < 8 then
            placeLoop cs file (rank + 1) (setCell b file rank p)
          else RunResult.panic

/-- `parse_piece_placement` from `fen_parser.rs`. -/
def parse_piece_placement (piece_placement : String) : RunResult MailBoxBoard :=
  placeLoop piece_placement.data 0 0 emptyBoard

/-- `parse_active_color` from `fen_parser.rs`. -/
def parse_active_color (active_color : String) : Except ErrorWrapper Color :=
  if active_color = "w" then Except.ok Color.White
  else if active_color = "b" then Except.ok Color.Black
  else Except.error ErrorWrapper.InvalidFen

/-- The merge step `*target_castling = match (*target_castling, castling)`
of `parse_castling_rights`: only the pair `(KingSide, QueenSide)`
produces `Both`; every other pair is overwritten by the new right. -/
def mergeCastling (old new : Castling) : Castling :=
  match old, new with
  | Castling.KingSide, Castling.QueenSide => Castling.Both
  | _, n => n

/-- The loop of `parse_castling_rights`: `'-'` returns the rights
accumulated so far; `k`/`q` (case-insensitively) select the new right,
with letter case selecting the side; anything else is `InvalidFen`. -/
def castlingLoop : List Char → Castling → Castling →
    Except ErrorWrapper (Castling × Castling)
  | [], w, b => Except.ok (w, b)
  | c :: cs, w, b =>
    if c = '-' then Except.ok (w, b)
    else
      match (match toAsciiLower c with
             | 'k' => some Castling.KingSide
             | 'q' => some Castling.QueenSide
             | _ => none) with
      | none => Except.error ErrorWrapper.InvalidFen
      | some newRight =>
        if isLowerChar c then castlingLoop cs w (mergeCastling b newRight)
        else castlingLoop cs (mergeCastling w newRight) b

/-- `parse_castling_rights` from `fen_parser.rs`; the pair is
`(white_castling, black_castling)`, both starting at `Castling::None`. -/
def parse_castling_rights (castling : String) :
    Except ErrorWrapper (Castling × Castling) :=
  castlingLoop castling.data Castling.None Castling.None

/-- Modelled from the spec: `convert_chess_coordinates` (declared in
`game.rs` of the repository but absent from the `src/` snapshot, which
holds a superseded `game.rs`).  Per spec section 4.6: only the first two
characters are consulted; the first must be `'a'..='h'` (mapping to 0-7,
anything else is Invalid Coordinates), the second must be a decimal
digit `d` with `8 - d` in `[0, 8)` (so `d` in `1..=8`); the result is
`(letter index, 8 - d)`.  Inputs shorter than two characters are outside
the spec's stated domain and are modelled as Invalid Coordinates. -/
def convert_chess_coordinates (s : String) : Except ErrorWrapper (Nat × Nat) :=
  match s.data with
  | c1 :: c2 :: _ =>
    if 'a' ≤ c1 ∧ c1 ≤ 'h' then
      match toDigit10 c2 with
      | some d =>
        if 1 ≤ d ∧ d ≤ 8 then Except.ok (c1.toNat - 97, 8 - d)
        else Except.error ErrorWrapper.InvalidCoordinates
      | none => Except.error ErrorWrapper.InvalidCoordinates
    else Except.error ErrorWrapper.InvalidCoordinates
  | _ => Except.error ErrorWrapper.InvalidCoordinates

/-- `parse_en_passant_square` from `fen_parser.rs`. -/
def parse_en_passant_square (en_passant : String) :
    Except ErrorWrapper (Option (Nat × Nat)) :=
  if en_passant = "-" then Except.ok none
  else
    match convert_chess_coordinates en_passant with
    | Except.ok sq => Except.ok (some sq)
    | Except.error e => Except.error e

/-- Accumulating digit loop of Rust `usize::from_str` (radix 10) on a
64-bit target: each step is `checked_mul(10)` then `checked_add(d)`,
failing on a non-digit character or once the value leaves `usize`. -/
def fromDigitsChecked : List Char → Nat → Option Nat
  | [], acc => some acc
  | c :: cs, acc =>
    match toDigit10 c with
    | none => none
    | some d =>
      if acc * 10 + d < 2 ^ 64 then fromDigitsChecked cs (acc * 10 + d)
      else none

/-- Rust `str::parse::<usize>` (64-bit): rejects the empty string, a
lone sign, and any `'-'` (unsigned type); accepts an optional single
leading `'+'` followed by one or more decimal digits whose value fits
in 64 bits. -/
def parseUsize (cs : List Char) : Option Nat :=
  match cs with
  | [] => none
  | c :: rest =>
    if c = '+' then
      if rest = [] then none else fromDigitsChecked rest 0
    else if c = '-' then none
    else fromDigitsChecked (c :: rest) 0

/-- `parse_moves` from `fen_parser.rs`: `moves.parse::<usize>()`, with
any parse error collapsed to `ErrorWrapper::InvalidNumber`. -/
def parse_moves (moves : String) : Except ErrorWrapper Nat :=
  match parseUsize moves.data with
  | some n => Except.ok n
  | none => Except.error ErrorWrapper.InvalidNumber

/-- Modelled from the spec: the seven-argument `ChessGame::new`
constructor used by `create_from_fen` (absent from the `src/` snapshot's
superseded `game.rs`).  Per spec section 3, the position record is the
plain aggregate of board, active side, the two castling rights, the
optional en-passant square, and the two move counters. -/
structure ChessGame where
  board : MailBoxBoard
  turn : Color
  white_castling : Castling
  black_castling : Castling
  en_passant : Option (Nat × Nat)
  halfmoves : Nat
  fullmoves : Nat

instance : DecidableEq ChessGame := fun g1 g2 =>
  if h : g1.board = g2.board ∧ g1.turn = g2.turn ∧
      g1.white_castling = g2.white_castling ∧
      g1.black_castling = g2.black_castling ∧
      g1.en_passant = g2.en_passant ∧ g1.halfmoves = g2.halfmoves ∧
      g1.fullmoves = g2.fullmoves then
    isTrue (by
      obtain ⟨h1, h2, h3, h4, h5, h6, h7⟩ := h
      cases g1; cases g2
      simp only at h1 h2 h3 h4 h5 h6 h7
      simp [h1, h2, h3, h4, h5, h6, h7])
  else
    isFalse (by
      intro he
      exact h (by cases he; exact ⟨rfl, rfl, rfl, rfl, rfl, rfl, rfl⟩))

/-- Modelled from the spec: `ChessGame::new` packs its seven arguments
into the position record. -/
def ChessGame.new (board : MailBoxBoard) (turn : Color)
    (white_castling black_castling : Castling)
    (en_passant : Option (Nat × Nat)) (halfmoves fullmoves : Nat) :
    ChessGame :=
  ⟨board, turn, white_castling, black_castling, en_passant, halfmoves,
    fullmoves⟩

/-- `create_from_fen` from `fen_parser.rs`: tokenize, then decode
active color, piece placement, castling rights, en passant and the two
move counters in that order, short-circuiting on the first failure
(and propagating a panic of `parse_fen` or `parse_piece_placement`). -/
def create_from_fen (fen : String) : RunResult ChessGame :=
  match parse_fen fen with
  | RunResult.panic => RunResult.panic
  | RunResult.error e => RunResult.error e
  | RunResult.ok (pp, ac, ca, ep, hm, fm) =>
    match parse_active_color ac with
    | Except.error e => RunResult.error e
    | Except.ok color =>
      match parse_piece_placement pp with
      | RunResult.panic => RunResult.panic
      | RunResult.error e => RunResult.error e
      | RunResult.ok board =>
        match parse_castling_rights ca with
        | Except.error e => RunResult.error e
        | Except.ok (wc, bc) =>
          match parse_en_passant_square ep with
          | Except.error e => RunResult.error e
          | Except.ok enp =>
            match parse_moves hm with
            | Except.error e => RunResult.error e
            | Except.ok h =>
              match parse_moves fm with
              | Except.error e => RunResult.error e
              | Except.ok f =>
                RunResult.ok (ChessGame.new board color wc bc enp h f)

/-! ## Specification-side definitions

These definitions follow the wording of the claims and of `spec.md`;
they are compared against the source-derived functions above. -/

/-- The black/white back rank of the starting position, in the order
rook, knight, bishop, queen, king, bishop, knight, rook (spec
section 8). -/
def backRank (c : Color) : Fin 8 → Piece := fun r =>
  match r.val with
  | 0 => Piece.Rook c
  | 1 => Piece.Knight c
  | 2 => Piece.Bishop c
  | 3 => Piece.Queen c
  | 4 => Piece.King c
  | 5 => Piece.Bishop c
  | 6 => Piece.Knight c
  | _ => Piece.Rook c

/-- The expected decoded starting board (spec section 8): row 0 the
black back rank, row 1 black pawns, rows 2-5 empty, row 6 white pawns,
row 7 the white back rank. -/
def startBoard : MailBoxBoard := fun f r =>
  match f.val with
  | 0 => backRank Color.Black r
  | 1 => Piece.Pawn Color.Black
  | 6 => Piece.Pawn Color.White
  | 7 => backRank Color.White r
  | _ => Piece.Empty

/-- The expected decoded starting position (spec section 8). -/
def startGame : ChessGame :=
  ChessGame.new startBoard Color.White Castling.Both Castling.Both none 0 1

/-- A placement character the decoder consumes without failing:
`'/'`, a decimal digit, or a piece letter in either case. -/
def validPlacementChar (c : Char) : Bool :=
  c = '/' || (toDigit10 c).isSome ||
    (toAsciiLower c = 'p' || toAsciiLower c = 'n' || toAsciiLower c = 'b' ||
     toAsciiLower c = 'r' || toAsciiLower c = 'q' || toAsciiLower c = 'k')

/-- The character class the claims name as the only valid placement
characters: `'/'`, the digits 1-8, and the piece letters. -/
def claimedPlacementChar (c : Char) : Bool :=
  c = '/' || ('1' ≤ c && c ≤ '8') ||
    (toAsciiLower c = 'p' || toAsciiLower c = 'n' || toAsciiLower c = 'b' ||
     toAsciiLower c = 'r' || toAsciiLower c = 'q' || toAsciiLower c = 'k')

/-- The rank groups of a placement string: the maximal runs of
characters between `'/'` separators. -/
def splitGroups : List Char → List (List Char)
  | [] => [[]]
  | c :: cs =>
    if c = '/' then [] :: splitGroups cs
    else
      match splitGroups cs with
      | g :: gs => (c :: g) :: gs
      | [] => [[c]]

/-- How many board squares a rank group covers: each digit advances by
its value, each other character by one. -/
def cover : List Char → Nat
  | [] => 0
  | c :: cs =>
    match toDigit10 c with
    | some d => d + cover cs
    | none => 1 + cover cs

/-- The `(file, rank)` cells the placement loop writes, mirroring the
index bookkeeping of `placeLoop`. -/
def writeList : List Char → Nat → Nat → List (Nat × Nat)
  | [], _, _ => []
  | c :: cs, file, rank =>
    if c = '/' then writeList cs (file + 1) 0
    else
      match toDigit10 c with
      | some d => writeList cs file (rank + d)
      | none => (file, rank) :: writeList cs file (rank + 1)

/-- Every character is an ASCII decimal digit. -/
def allDigits (cs : List Char) : Bool := cs.all fun c => (toDigit10 c).isSome

/-- The base-10 value of a digit string, with no overflow check. -/
def natOfDigits : List Char → Nat → Nat
  | [], acc => acc
  | c :: cs, acc => natOfDigits cs (acc * 10 + (c.toNat - 48))

/-- The claims' reading of "a valid unsigned base-10 integer": one or
more decimal digits whose value fits the 64-bit `usize`. -/
def isUnsignedIntegerString (s : String) : Bool :=
  !s.data.isEmpty && allDigits s.data && decide (natOfDigits s.data 0 < 2 ^ 64)

/-!
## Claim theorems
-/

/-- C1 (code bug): the spec says that an input with fewer than six
space-delimited tokens fails with the Malformed FEN error, and the dead
`let ... else` branch of `parse_fen` shows the same intent, but the
`[0..6]` slice panics first: on `"a b c"` (three tokens) both
`parse_fen` and `create_from_fen` panic instead of returning
`ErrorWrapper::InvalidFen`. -/
theorem parse_fen_short_input_panics :
    (splitOnChar ' ' "a b c".data).length = 3 ∧
      parse_fen "a b c" = RunResult.panic ∧
      create_from_fen "a b c" = RunResult.panic := by
  refine ⟨rfl, rfl, rfl⟩

/-- C2 (counterexample): the claim says the castling merge rule is
symmetric, so `"QK"` should give white `Both`; the code instead matches
only `(KingSide, QueenSide)`, so `"QK"` leaves white with `KingSide`. -/
theorem castling_merge_not_symmetric_cex :
    parse_castling_rights "QK" =
        Except.ok (Castling.KingSide, Castling.None) ∧
      Castling.KingSide ≠ Castling.Both := by
  refine ⟨rfl, by decide⟩

/-- C2 (amended): the merge rule is order-dependent: king-side then
queen-side for one side (`"KQ"`, `"kq"`) yields `Both` for that side,
but queen-side then king-side (`"QK"`, `"qk"`) yields `KingSide`, the
new right overwriting the old one. -/
theorem castling_merge_order_dependent :
    parse_castling_rights "KQ" = Except.ok (Castling.Both, Castling.None) ∧
      parse_castling_rights "kq" = Except.ok (Castling.None, Castling.Both) ∧
      parse_castling_rights "QK" =
        Except.ok (Castling.KingSide, Castling.None) ∧
      parse_castling_rights "qk" =
        Except.ok (Castling.None, Castling.KingSide) := by
  refine ⟨rfl, rfl, rfl, rfl⟩

/-- C4: decoding the starting-position FEN succeeds and yields the
expected position record: black back rank on row 0, black pawns on
row 1, empty rows 2-5, white pawns on row 6, white back rank on row 7,
white to move, both castling rights `Both`, no en-passant target,
half-move clock 0 and full-move number 1. -/
theorem starting_fen_decodes_to_start_position :
    create_from_fen "rnbqkbnr/pppppppp/8/8/8/8/PPPPPPPP/RNBQKBNR w KQkq - 0 1" =
      RunResult.ok startGame := by
  decide

/-- C5: once a side's accumulated right is `Both`, a further
single-letter right for that side overwrites it with the new single
right (the fallback branch of the merge), for every continuation of the
field; in particular `"KQK"` leaves white with `KingSide`, not `Both`. -/
theorem castling_both_overwritten_by_single_right :
    (∀ (rest : List Char) (b : Castling),
        castlingLoop ('K' :: rest) Castling.Both b =
          castlingLoop rest Castling.KingSide b) ∧
      (∀ (rest : List Char) (b : Castling),
        castlingLoop ('Q' :: rest) Castling.Both b =
          castlingLoop rest Castling.QueenSide b) ∧
      (∀ (rest : List Char) (w : Castling),
        castlingLoop ('k' :: rest) w Castling.Both =
          castlingLoop rest w Castling.KingSide) ∧
      (∀ (rest : List Char) (w : Castling),
        castlingLoop ('q' :: rest) w Castling.Both =
          castlingLoop rest w Castling.QueenSide) ∧
      parse_castling_rights "KQK" =
        Except.ok (Castling.KingSide, Castling.None) := by
  refine ⟨fun rest b => rfl, fun rest b => rfl, fun rest w => rfl,
    fun rest w => rfl, rfl⟩

/-- C8: the grid writes of the placement decoder are not
bounds-guarded: a ninth rank group containing a piece letter writes at
file index 8, and a digit run that advances the within-rank index past
7 before a piece letter writes at rank index 8; both index outside the
8×8 grid (modelled as a panic), so `parse_piece_placement` is not total
over arbitrary strings. -/
theorem placement_writes_out_of_bounds :
    parse_piece_placement "8/8/8/8/8/8/8/8/q" = RunResult.panic ∧
      parse_piece_placement "8p" = RunResult.panic := by
  refine ⟨rfl, rfl⟩

/-- C9: the empty castling field is accepted: `parse_castling_rights`
on `""` returns `Ok` with both rights `None`, the same as on `"-"`. -/
theorem empty_castling_field_accepted :
    parse_castling_rights "" = Except.ok (Castling.None, Castling.None) ∧
      parse_castling_rights "-" = parse_castling_rights "" := by
  refine ⟨rfl, rfl⟩

/-- C3 (counterexample): the claim says any character other than '/',
the digits 1-8 and the piece letters makes `parse_piece_placement` fail
with Malformed FEN, but `'9'` is consumed by the `to_digit(10)` branch:
`"9"` succeeds with the all-empty board, and on `"pppppppppx"` the
decoder panics on an out-of-bounds write before ever reaching the
invalid `'x'`. -/
theorem placement_digit_nine_accepted_cex :
    claimedPlacementChar '9' = false ∧
      parse_piece_placement "9" = RunResult.ok emptyBoard ∧
      claimedPlacementChar 'x' = false ∧
      parse_piece_placement "pppppppppx" = RunResult.panic := by
  refine ⟨by decide, by decide, by decide, rfl⟩

/-- C7 (counterexample): `"+50"` is not an unsigned base-10 integer
numeral (its first character is not a digit), yet `parse_moves` returns
`Ok(50)` rather than the Invalid Number error, because Rust's unsigned
integer parser accepts one leading `'+'`. -/
theorem parse_moves_plus_sign_cex :
    parse_moves "+50" = Except.ok 50 ∧
      isUnsignedIntegerString "+50" = false := by
  refine ⟨rfl, by decide⟩

/-- C10 (counterexample): `"8p"` consists only of valid placement
characters and has a single rank group (fewer than eight), yet
`parse_piece_placement` does not succeed on it: the digit run advances
the within-rank index to 8 and the following `'p'` writes out of
bounds. -/
theorem placement_under_coverage_cex :
    (∀ c ∈ "8p".data, validPlacementChar c = true) ∧
      (splitGroups "8p".data).length < 8 ∧
      parse_piece_placement "8p" = RunResult.panic := by
  refine ⟨by decide, by decide, rfl⟩

/-- C6: the en-passant decoder maps exactly `"-"` to no target; any
other token goes through the coordinate conversion: a first character
outside `'a'..='h'` is Invalid Coordinates, and otherwise a digit
second character `d` gives the pair `(letter index, 8 - d)` when
`8 - d` lies in `[0, 8)` (that is, `1 ≤ d ≤ 8`) and Invalid
Coordinates otherwise; in particular `"e3"` yields `(4, 5)` and
`"o1"` fails. -/
theorem en_passant_decoder_spec :
    parse_en_passant_square "-" = Except.ok none ∧
      parse_en_passant_square "e3" = Except.ok (some (4, 5)) ∧
      parse_en_passant_square "o1" =
        Except.error ErrorWrapper.InvalidCoordinates ∧
      (∀ (c1 c2 : Char) (rest : List Char), ¬('a' ≤ c1 ∧ c1 ≤ 'h') →
        parse_en_passant_square (String.mk (c1 :: c2 :: rest)) =
          Except.error ErrorWrapper.InvalidCoordinates) ∧
      (∀ (c1 c2 : Char) (rest : List Char) (d : Nat),
        ('a' ≤ c1 ∧ c1 ≤ 'h') → toDigit10 c2 = some d → 1 ≤ d → d ≤ 8 →
        parse_en_passant_square (String.mk (c1 :: c2 :: rest)) =
          Except.ok (some (c1.toNat - 97, 8 - d))) ∧
      (∀ (c1 c2 : Char) (rest : List Char) (d : Nat),
        ('a' ≤ c1 ∧ c1 ≤ 'h') → toDigit10 c2 = some d → ¬(1 ≤ d ∧ d ≤ 8) →
        parse_en_passant_square (String.mk (c1 :: c2 :: rest)) =
          Except.error ErrorWrapper.InvalidCoordinates) := by
  have hne : ∀ (c1 c2 : Char) (rest : List Char),
      String.mk (c1 :: c2 :: rest) ≠ "-" := by
    intro c1 c2 rest h
    have hd := congrArg String.data h
    simp [String.data] at hd
  refine ⟨rfl, rfl, rfl, ?_, ?_, ?_⟩
  · intro c1 c2 rest h1
    unfold parse_en_passant_square
    rw [if_neg (hne c1 c2 rest)]
    unfold convert_chess_coordinates
    simp only [String.data]
    rw [if_neg h1]
  · intro c1 c2 rest d h1 h2 h3 h4
    unfold parse_en_passant_square
    rw [if_neg (hne c1 c2 rest)]
    unfold convert_chess_coordinates
    simp only [String.data]
    rw [if_pos h1, h2]
    simp [h3, h4]
  · intro c1 c2 rest d h1 h2 h3
    unfold parse_en_passant_square
    rw [if_neg (hne c1 c2 rest)]
    unfold convert_chess_coordinates
    simp only [String.data]
    rw [if_pos h1, h2]
    simp [h3]

/-- Witness for C6 at the concrete inputs `"o1x"` and `"e3"`. -/
theorem en_passant_decoder_spec_witness :
    ¬('a' ≤ 'o' ∧ 'o' ≤ 'h') ∧
      parse_en_passant_square (String.mk ['o', '1', 'x']) =
        Except.error ErrorWrapper.InvalidCoordinates ∧
      ('a' ≤ 'e' ∧ 'e' ≤ 'h') ∧
      parse_en_passant_square (String.mk ['e', '3']) =
        Except.ok (some (4, 5)) := by
  refine ⟨by decide, ?_, by decide, ?_⟩
  · exact en_passant_decoder_spec.2.2.2.1 'o' '1' ['x'] (by decide)
  · exact en_passant_decoder_spec.2.2.2.2.1 'e' '3' [] 3 (by decide) (by decide)
      (by decide) (by decide)



lemma char_le_iff {a b : Char} : a ≤ b ↔ a.toNat ≤ b.toNat := Iff.rfl

lemma char_eq_of_toNat_eq {a b : Char} (h : a.toNat = b.toNat) : a = b :=
  Char.ext (congrArg UInt32.mk (BitVec.eq_of_toNat_eq h))

lemma toNat_ofNat_valid {n : Nat} (h : n < 55296) : (Char.ofNat n).toNat = n := by
  rw [Char.ofNat, dif_pos (Or.inl h)]
  rfl

lemma preimage_toAsciiLower {c t : Char} (hd : toAsciiLower c = t) :
    c = t ∨ (c.toNat + 32 = t.toNat ∧ 65 ≤ c.toNat ∧ c.toNat ≤ 90) := by
  unfold toAsciiLower at hd
  by_cases hAZ : 'A' ≤ c ∧ c ≤ 'Z'
  · right
    rw [if_pos hAZ] at hd
    have h1 : 65 ≤ c.toNat := char_le_iff.mp hAZ.1
    have h2 : c.toNat ≤ 90 := char_le_iff.mp hAZ.2
    have hv : c.toNat + 32 < 55296 := by omega
    have := congrArg Char.toNat hd
    rw [toNat_ofNat_valid hv] at this
    exact ⟨this, h1, h2⟩
  · left
    rw [if_neg hAZ] at hd
    exact hd

lemma toAsciiLower_eq_nonletter {c t : Char} (hd : toAsciiLower c = t)
    (ht : t.toNat < 97) : c = t := by
  rcases preimage_toAsciiLower hd with h | ⟨he, hl, hu⟩
  · exact h
  · omega

lemma invalid_fen_piece {c : Char} (hnd : toDigit10 c = none)
    (hp : toAsciiLower c ≠ 'p') (hn : toAsciiLower c ≠ 'n')
    (hb : toAsciiLower c ≠ 'b') (hr : toAsciiLower c ≠ 'r')
    (hq : toAsciiLower c ≠ 'q') (hk : toAsciiLower c ≠ 'k') :
    fen_piece_to_piece c = Except.error ErrorWrapper.InvalidFen := by
  unfold fen_piece_to_piece
  split
  all_goals
    split
    all_goals
      first
        | rfl
        | (rename_i heq
           first
             | exact absurd heq hp
             | exact absurd heq hn
             | exact absurd heq hb
             | exact absurd heq hr
             | exact absurd heq hq
             | exact absurd heq hk
             | exact absurd hnd
                 (by have hc := toAsciiLower_eq_nonletter heq (by decide); subst hc; decide))


lemma invalid_char_parts {c : Char} (hv : validPlacementChar c = false) :
    c ≠ '/' ∧ toDigit10 c = none ∧
      fen_piece_to_piece c = Except.error ErrorWrapper.InvalidFen := by
  have h1 : c ≠ '/' := by
    intro h
    subst h
    exact absurd hv (by decide)
  have h2 : toDigit10 c = none := by
    cases hd : toDigit10 c with
    | none => rfl
    | some d => simp [validPlacementChar, hd] at hv
  have hp : toAsciiLower c ≠ 'p' := by
    intro h; simp [validPlacementChar, h] at hv
  have hn : toAsciiLower c ≠ 'n' := by
    intro h; simp [validPlacementChar, h] at hv
  have hb : toAsciiLower c ≠ 'b' := by
    intro h; simp [validPlacementChar, h] at hv
  have hr : toAsciiLower c ≠ 'r' := by
    intro h; simp [validPlacementChar, h] at hv
  have hq : toAsciiLower c ≠ 'q' := by
    intro h; simp [validPlacementChar, h] at hv
  have hk : toAsciiLower c ≠ 'k' := by
    intro h; simp [validPlacementChar, h] at hv
  exact ⟨h1, h2, invalid_fen_piece h2 hp hn hb hr hq hk⟩

lemma placeLoop_invalid {c : Char} (hv : validPlacementChar c = false) :
    ∀ (cs : List Char) (file rank : Nat) (b : MailBoxBoard), c ∈ cs →
      placeLoop cs file rank b = RunResult.error ErrorWrapper.InvalidFen ∨
        placeLoop cs file rank b = RunResult.panic := by
  obtain ⟨hslash, hdig, hfen⟩ := invalid_char_parts hv
  intro cs
  induction cs with
  | nil => intro file rank b hmem; cases hmem
  | cons hd tl ih =>
    intro file rank b hmem
    rcases List.mem_cons.mp hmem with rfl | htl
    · unfold placeLoop
      rw [if_neg hslash, hdig, hfen]
      exact Or.inl rfl
    · unfold placeLoop
      by_cases hs : hd = '/'
      · rw [if_pos hs]
        exact ih (file + 1) 0 b htl
      · rw [if_neg hs]
        cases hdd : toDigit10 hd with
        | some d =>
          simp only [hdd]
          exact ih file (rank + d) b htl
        | none =>
          simp only [hdd]
          cases hff : fen_piece_to_piece hd with
          | error e =>
            refine Or.inl ?_
            simp only [hff]
          | ok p =>
            simp only [hff]
            by_cases hb8 : file < 8 ∧ rank < 8
            · rw [if_pos hb8]
              exact ih file (rank + 1) (setCell b file rank p) htl
            · rw [if_neg hb8]
              exact Or.inr rfl

/-- C3 (amended): a placement field containing a character that is not
`'/'`, not a decimal digit 0-9 (the code's `to_digit(10)` accepts `'0'`
and `'9'` as run-lengths, beyond the claimed 1-8) and not a piece
letter in either case never decodes successfully: the decoder fails
with Malformed FEN unless an unguarded out-of-bounds write (a panic)
occurs first. -/
theorem placement_invalid_char_never_ok (s : String) (c : Char)
    (hmem : c ∈ s.data) (hv : validPlacementChar c = false) :
    parse_piece_placement s = RunResult.error ErrorWrapper.InvalidFen ∨
      parse_piece_placement s = RunResult.panic :=
  placeLoop_invalid hv s.data 0 0 emptyBoard hmem

/-- Witness for C3 at the concrete input `"x"`. -/
theorem placement_invalid_char_never_ok_witness :
    ('x' ∈ "x".data ∧ validPlacementChar 'x' = false) ∧
      (parse_piece_placement "x" = RunResult.error ErrorWrapper.InvalidFen ∨
        parse_piece_placement "x" = RunResult.panic) :=
  ⟨⟨by decide, by decide⟩,
    placement_invalid_char_never_ok "x" 'x' (by decide) (by decide)⟩



lemma natOfDigits_le (cs : List Char) (acc : Nat) : acc ≤ natOfDigits cs acc := by
  induction cs generalizing acc with
  | nil => exact Nat.le_refl acc
  | cons c tl ih =>
    calc acc ≤ acc * 10 + (c.toNat - 48) := by omega
      _ ≤ natOfDigits tl (acc * 10 + (c.toNat - 48)) := ih _
      _ = natOfDigits (c :: tl) acc := rfl

lemma fromDigitsChecked_eq_some (cs : List Char) :
    ∀ (acc n : Nat), acc < 2 ^ 64 →
      (fromDigitsChecked cs acc = some n ↔
        allDigits cs = true ∧ natOfDigits cs acc = n ∧ n < 2 ^ 64) := by
  induction cs with
  | nil =>
    intro acc n hacc
    unfold fromDigitsChecked allDigits natOfDigits
    simp only [List.all_nil]
    constructor
    · rintro h
      cases h
      exact ⟨trivial, rfl, hacc⟩
    · rintro ⟨-, rfl, -⟩
      rfl
  | cons c tl ih =>
    intro acc n hacc
    unfold fromDigitsChecked
    cases hc : toDigit10 c with
    | none =>
      simp [allDigits, hc]
    | some d =>
      have hd : d = c.toNat - 48 := by
        unfold toDigit10 at hc
        by_cases h09 : '0' ≤ c ∧ c ≤ '9'
        · rw [if_pos h09] at hc
          cases hc
          rfl
        · rw [if_neg h09] at hc
          cases hc
      subst hd
      show (if acc * 10 + (c.toNat - 48) < 2 ^ 64 then
          fromDigitsChecked tl (acc * 10 + (c.toNat - 48)) else none) = some n ↔ _
      by_cases hlt : acc * 10 + (c.toNat - 48) < 2 ^ 64
      · rw [if_pos hlt]
        rw [ih _ n hlt]
        simp [allDigits, hc, natOfDigits]
      · rw [if_neg hlt]
        simp only [allDigits, List.all_cons, hc, Option.isSome_some, Bool.true_and]
        constructor
        · intro h
          cases h
        · rintro ⟨-, rfl, hn⟩
          have := natOfDigits_le tl (acc * 10 + (c.toNat - 48))
          have : natOfDigits (c :: tl) acc = natOfDigits tl (acc * 10 + (c.toNat - 48)) := rfl
          omega


lemma toDigit10_plus : toDigit10 '+' = none := by decide

/-- C7 (amended): `parse_moves` returns `Ok(n)` exactly when the field
is a string of decimal digits, optionally preceded by a single `'+'`
(which Rust's unsigned parser accepts, beyond the claim's plain
numerals), whose value `n` fits in the 64-bit `usize`; in every other
case — empty input, non-digit content, a `'-'` sign, or overflow — it
returns the Invalid Number error, and those are the only two
outcomes. -/
theorem parse_moves_characterization :
    (∀ (s : String) (n : Nat),
      parse_moves s = Except.ok n ↔
        ((allDigits s.data = true ∧ s.data ≠ [] ∧
            natOfDigits s.data 0 = n ∧ n < 2 ^ 64) ∨
          (∃ ds, s.data = '+' :: ds ∧ allDigits ds = true ∧ ds ≠ [] ∧
            natOfDigits ds 0 = n ∧ n < 2 ^ 64))) ∧
      (∀ s : String, (∃ n, parse_moves s = Except.ok n) ∨
        parse_moves s = Except.error ErrorWrapper.InvalidNumber) := by
  have key : ∀ (cs : List Char) (n : Nat),
      (fromDigitsChecked cs 0 = some n ↔
        allDigits cs = true ∧ natOfDigits cs 0 = n ∧ n < 2 ^ 64) :=
    fun cs n => fromDigitsChecked_eq_some cs 0 n (by norm_num)
  constructor
  · intro s n
    unfold parse_moves parseUsize
    cases hcs : s.data with
    | nil => simp
    | cons c rest =>
      dsimp only
      by_cases hplus : c = '+'
      · subst hplus
        rw [if_pos rfl]
        by_cases hre : rest = []
        · subst hre
          simp [allDigits, toDigit10_plus]
        · rw [if_neg hre]
          cases hfd : fromDigitsChecked rest 0 with
          | none =>
            simp only [allDigits, List.all_cons, toDigit10_plus,
              Option.isSome_none, Bool.false_and]
            constructor
            · intro h
              cases h
            · rintro (⟨h, -⟩ | ⟨ds, hds, h1, h2, h3, h4⟩)
              · cases h
              · injection hds with hds1 hds2
                subst hds2
                have := (key rest n).mpr ⟨h1, h3, h4⟩
                rw [hfd] at this
                cases this
          | some m =>
            have hm := (key rest m).mp hfd
            simp only [allDigits, List.all_cons, toDigit10_plus,
              Option.isSome_none, Bool.false_and]
            constructor
            · intro h
              cases h
              exact Or.inr ⟨rest, rfl, hm.1, hre, hm.2.1, hm.2.2⟩
            · rintro (⟨h, -⟩ | ⟨ds, hds, h1, h2, h3, h4⟩)
              · cases h
              · injection hds with hds1 hds2
                subst hds2
                have := (key rest n).mpr ⟨h1, h3, h4⟩
                rw [hfd] at this
                cases this
                rfl
      · rw [if_neg hplus]
        by_cases hminus : c = '-'
        · subst hminus
          rw [if_pos rfl]
          constructor
          · intro h
            cases h
          · rintro (⟨h, -⟩ | ⟨ds, hds, -⟩)
            · have hminusd : toDigit10 '-' = none := by decide
              simp only [allDigits, List.all_cons, hminusd,
                Option.isSome_none, Bool.false_and] at h
              exact Bool.noConfusion h
            · cases hds
        · rw [if_neg hminus]
          cases hfd : fromDigitsChecked (c :: rest) 0 with
          | none =>
            constructor
            · intro h
              cases h
            · rintro (⟨h1, h2, h3, h4⟩ | ⟨ds, hds, -⟩)
              · have := (key (c :: rest) n).mpr ⟨h1, h3, h4⟩
                rw [hfd] at this
                cases this
              · injection hds with hds1 hds2
                exact absurd hds1 hplus
          | some m =>
            have hm := (key (c :: rest) m).mp hfd
            constructor
            · intro h
              cases h
              exact Or.inl ⟨hm.1, by simp, hm.2.1, hm.2.2⟩
            · rintro (⟨h1, h2, h3, h4⟩ | ⟨ds, hds, -⟩)
              · have := (key (c :: rest) n).mpr ⟨h1, h3, h4⟩
                rw [hfd] at this
                cases this
                rfl
              · injection hds with hds1 hds2
                exact absurd hds1 hplus
  · intro s
    unfold parse_moves
    cases parseUsize s.data with
    | some m => exact Or.inl ⟨m, rfl⟩
    | none => exact Or.inr rfl



lemma splitGroups_ne_nil (cs : List Char) : splitGroups cs ≠ [] := by
  cases cs with
  | nil => simp [splitGroups]
  | cons c tl =>
    unfold splitGroups
    by_cases h : c = '/'
    · simp [h]
    · rw [if_neg h]
      cases splitGroups tl <;> simp

lemma valid_letter_fen {c : Char} (hv : validPlacementChar c = true)
    (hs : c ≠ '/') (hd : toDigit10 c = none) :
    ∃ p, fen_piece_to_piece c = Except.ok p := by
  simp only [validPlacementChar, hd, Option.isSome_none, Bool.or_eq_true,
    decide_eq_true_eq, Bool.or_self, Bool.false_or, or_assoc, false_or] at hv
  rcases hv with h | h | h | h | h | h | h | h
  · exact absurd h hs
  · exact Bool.noConfusion h
  · exact ⟨Piece.Pawn (if isUpperChar c = true then Color.White else Color.Black),
      by unfold fen_piece_to_piece; rw [h]; rfl⟩
  · exact ⟨Piece.Knight (if isUpperChar c = true then Color.White else Color.Black),
      by unfold fen_piece_to_piece; rw [h]; rfl⟩
  · exact ⟨Piece.Bishop (if isUpperChar c = true then Color.White else Color.Black),
      by unfold fen_piece_to_piece; rw [h]; rfl⟩
  · exact ⟨Piece.Rook (if isUpperChar c = true then Color.White else Color.Black),
      by unfold fen_piece_to_piece; rw [h]; rfl⟩
  · exact ⟨Piece.Queen (if isUpperChar c = true then Color.White else Color.Black),
      by unfold fen_piece_to_piece; rw [h]; rfl⟩
  · exact ⟨Piece.King (if isUpperChar c = true then Color.White else Color.Black),
      by unfold fen_piece_to_piece; rw [h]; rfl⟩


lemma cover_cons_digit {c : Char} {d : Nat} (h : toDigit10 c = some d)
    (g : List Char) : cover (c :: g) = d + cover g := by
  have hstep : cover (c :: g) =
      match toDigit10 c with
      | some d2 => d2 + cover g
      | none => 1 + cover g := rfl
  rw [hstep, h]

lemma cover_cons_letter {c : Char} (h : toDigit10 c = none)
    (g : List Char) : cover (c :: g) = 1 + cover g := by
  have hstep : cover (c :: g) =
      match toDigit10 c with
      | some d2 => d2 + cover g
      | none => 1 + cover g := rfl
  rw [hstep, h]

lemma splitGroups_cons_slash (tl : List Char) :
    splitGroups ('/' :: tl) = [] :: splitGroups tl := rfl

lemma splitGroups_cons_not_slash {c : Char} (hs : c ≠ '/') (tl : List Char) :
    splitGroups (c :: tl) =
      match splitGroups tl with
      | g :: gs => (c :: g) :: gs
      | [] => [[c]] := by
  have hstep : splitGroups (c :: tl) =
      if c = '/' then [] :: splitGroups tl
      else
        match splitGroups tl with
        | g :: gs => (c :: g) :: gs
        | [] => [[c]] := rfl
  rw [hstep, if_neg hs]

lemma placeLoop_cons_not_slash {c : Char} (hs : c ≠ '/') (tl : List Char)
    (file rank : Nat) (b : MailBoxBoard) :
    placeLoop (c :: tl) file rank b =
      match toDigit10 c with
      | some d => placeLoop tl file (rank + d) b
      | none =>
        match fen_piece_to_piece c with
        | Except.error _ => RunResult.error ErrorWrapper.InvalidFen
        | Except.ok p =>
          if file < 8 ∧ rank < 8 then
            placeLoop tl file (rank + 1) (setCell b file rank p)
          else RunResult.panic := by
  have hstep : placeLoop (c :: tl) file rank b =
      if c = '/' then placeLoop tl (file + 1) 0 b
      else
        match toDigit10 c with
        | some d => placeLoop tl file (rank + d) b
        | none =>
          match fen_piece_to_piece c with
          | Except.error _ => RunResult.error ErrorWrapper.InvalidFen
          | Except.ok p =>
            if file < 8 ∧ rank < 8 then
              placeLoop tl file (rank + 1) (setCell b file rank p)
            else RunResult.panic := rfl
  rw [hstep, if_neg hs]

lemma placeLoop_ok :
    ∀ (cs : List Char) (file rank : Nat) (b : MailBoxBoard),
      (∀ c ∈ cs, validPlacementChar c = true) →
      file + (splitGroups cs).length ≤ 8 →
      rank + cover ((splitGroups cs).headD []) ≤ 8 →
      (∀ g ∈ (splitGroups cs).tail, cover g ≤ 8) →
      ∃ b2, placeLoop cs file rank b = RunResult.ok b2 := by
  intro cs
  induction cs with
  | nil =>
    intro file rank b _ _ _ _
    exact ⟨b, rfl⟩
  | cons c tl ih =>
    intro file rank b hv hlen hhead htail
    have hvc := hv c (List.mem_cons_self c tl)
    have hvtl : ∀ x ∈ tl, validPlacementChar x = true :=
      fun x hx => hv x (List.mem_cons_of_mem c hx)
    obtain ⟨g, gs, hg⟩ : ∃ g gs, splitGroups tl = g :: gs := by
      cases hq : splitGroups tl with
      | nil => exact absurd hq (splitGroups_ne_nil tl)
      | cons g gs => exact ⟨g, gs, rfl⟩
    by_cases hs : c = '/'
    · subst hs
      rw [splitGroups_cons_slash, hg] at hlen htail
      refine ih (file + 1) 0 b hvtl ?_ ?_ ?_
      · rw [hg]
        simp only [List.length_cons] at hlen ⊢
        omega
      · rw [hg]
        simp only [List.headD_cons]
        have := htail g (by simp)
        omega
      · intro x hx
        rw [hg] at hx
        exact htail x (List.mem_cons_of_mem g hx)
    · have hsp : splitGroups (c :: tl) = (c :: g) :: gs := by
        rw [splitGroups_cons_not_slash hs, hg]
      rw [hsp] at hlen hhead htail
      simp only [List.headD_cons] at hhead
      simp only [List.length_cons] at hlen
      simp only [List.tail_cons] at htail
      cases hdig : toDigit10 c with
      | some d =>
        rw [cover_cons_digit hdig] at hhead
        have hres := ih file (rank + d) b hvtl
          (by rw [hg]; simp only [List.length_cons]; omega)
          (by rw [hg]; simp only [List.headD_cons]; omega)
          (by intro x hx; rw [hg] at hx; exact htail x hx)
        rw [placeLoop_cons_not_slash hs, hdig]
        exact hres
      | none =>
        obtain ⟨p, hp⟩ := valid_letter_fen hvc hs hdig
        rw [cover_cons_letter hdig] at hhead
        have hf8 : file < 8 := by omega
        have hr8 : rank < 8 := by omega
        have hres := ih file (rank + 1) (setCell b file rank p) hvtl
          (by rw [hg]; simp only [List.length_cons]; omega)
          (by rw [hg]; simp only [List.headD_cons]; omega)
          (by intro x hx; rw [hg] at hx; exact htail x hx)
        rw [placeLoop_cons_not_slash hs, hdig, hp]
        show ∃ b2, (if file < 8 ∧ rank < 8 then
            placeLoop tl file (rank + 1) (setCell b file rank p)
          else RunResult.panic) = RunResult.ok b2
        rw [if_pos ⟨hf8, hr8⟩]
        exact hres

lemma placeLoop_unwritten :
    ∀ (cs : List Char) (file rank : Nat) (b b2 : MailBoxBoard),
      placeLoop cs file rank b = RunResult.ok b2 →
      ∀ i j : Fin 8, (i.val, j.val) ∉ writeList cs file rank →
        b2 i j = b i j := by
  intro cs
  induction cs with
  | nil =>
    intro file rank b b2 h i j _
    cases h
    rfl
  | cons c tl ih =>
    intro file rank b b2 h i j hnw
    by_cases hs : c = '/'
    · subst hs
      exact ih _ _ _ _ h i j hnw
    · rw [placeLoop_cons_not_slash hs] at h
      have hwstep : writeList (c :: tl) file rank =
          if c = '/' then writeList tl (file + 1) 0
          else
            match toDigit10 c with
            | some d => writeList tl file (rank + d)
            | none => (file, rank) :: writeList tl file (rank + 1) := rfl
      rw [hwstep, if_neg hs] at hnw
      cases hdig : toDigit10 c with
      | some d =>
        rw [hdig] at h hnw
        exact ih _ _ _ _ h i j hnw
      | none =>
        rw [hdig] at h hnw
        cases hp : fen_piece_to_piece c with
        | error e =>
          rw [hp] at h
          exact RunResult.noConfusion h
        | ok p =>
          rw [hp] at h
          have h2 : (if file < 8 ∧ rank < 8 then
              placeLoop tl file (rank + 1) (setCell b file rank p)
            else RunResult.panic) = RunResult.ok b2 := h
          by_cases hb8 : file < 8 ∧ rank < 8
          · rw [if_pos hb8] at h2
            simp only [List.mem_cons, not_or, Prod.mk.injEq, not_and] at hnw
            have hrec := ih _ _ _ _ h2 i j hnw.2
            rw [hrec]
            have hne : ¬(i.val = file ∧ j.val = rank) := fun hij =>
              hnw.1 hij.1 hij.2
            show (if i.val = file ∧ j.val = rank then p else b i j) = b i j
            rw [if_neg hne]
          · rw [if_neg hb8] at h2
            exact RunResult.noConfusion h2

/-- C10 (amended): the placement decoder performs no completeness
check: any placement string of valid characters with at most eight rank
groups, each covering at most eight squares (fewer groups or smaller
coverage included), decodes successfully, and every grid cell the loop
never wrote keeps its default `Empty` value. -/
theorem placement_valid_bounded_succeeds (s : String)
    (hv : ∀ c ∈ s.data, validPlacementChar c = true)
    (hlen : (splitGroups s.data).length ≤ 8)
    (hcov : ∀ g ∈ splitGroups s.data, cover g ≤ 8) :
    ∃ b, parse_piece_placement s = RunResult.ok b ∧
      ∀ i j : Fin 8, (i.val, j.val) ∉ writeList s.data 0 0 →
        b i j = Piece.Empty := by
  obtain ⟨g, gs, hg⟩ : ∃ g gs, splitGroups s.data = g :: gs := by
    cases hq : splitGroups s.data with
    | nil => exact absurd hq (splitGroups_ne_nil s.data)
    | cons g gs => exact ⟨g, gs, rfl⟩
  obtain ⟨b, hb⟩ := placeLoop_ok s.data 0 0 emptyBoard hv (by omega)
    (by
      rw [hg]
      simp only [List.headD_cons]
      have := hcov g (by rw [hg]; exact List.mem_cons_self g gs)
      omega)
    (fun x hx => hcov x (List.mem_of_mem_tail hx))
  refine ⟨b, hb, fun i j hn => ?_⟩
  exact placeLoop_unwritten s.data 0 0 emptyBoard b hb i j hn

/-- Witness for C10 at the concrete input `"8"` (a single rank group,
fewer than eight, no writes at all): it decodes successfully and every
cell is `Empty`. -/
theorem placement_valid_bounded_succeeds_witness :
    ((∀ c ∈ "8".data, validPlacementChar c = true) ∧
      (splitGroups "8".data).length ≤ 8 ∧
      (∀ g ∈ splitGroups "8".data, cover g ≤ 8)) ∧
      ∃ b, parse_piece_placement "8" = RunResult.ok b ∧
        ∀ i j : Fin 8, (i.val, j.val) ∉ writeList "8".data 0 0 →
          b i j = Piece.Empty :=
  ⟨⟨by decide, by decide, by decide⟩,
    placement_valid_bounded_succeeds "8" (by decide) (by decide) (by decide)⟩



/-- Witness for C5 at a concrete continuation: after white has `Both`,
a following `'K'` restarts white at `KingSide`. -/
theorem castling_both_overwritten_by_single_right_witness :
    castlingLoop ('K' :: []) Castling.Both Castling.None =
      castlingLoop [] Castling.KingSide Castling.None :=
  castling_both_overwritten_by_single_right.1 [] Castling.None

/-- Witness for C7 at the concrete field `"50"`. -/
theorem parse_moves_characterization_witness :
    parse_moves "50" = Except.ok 50 :=
  (parse_moves_characterization.1 "50" 50).mpr
    (Or.inl ⟨by decide, by decide, by decide, by decide⟩)


end Nogi
